import Mathlib

/-!
Verification of `directory_analyzer.py` (class `DirectoryAnalyzer`).

The program is embedded shallowly:

* a file encountered during `os.walk` is an `Entry` carrying the results of the
  `is_file()` / `is_symlink()` checks and of the `stat()` call (`statSize = none`
  models `stat` raising `OSError`/`PermissionError`);
* the triples yielded by `os.walk` are `WalkStep`s; a directory tree is an
  `FsDir`, and `FsDir.walk` embeds CPython's `os.walk` with its default
  `onerror=None` behaviour (errors from `scandir` are ignored, so an unreadable
  directory yields no triple and raises nothing);
* the mutable fields of the `DirectoryAnalyzer` instance form `AnalyzerState`;
  the Python `dict` `file_types` is an insertion-ordered association list,
  matching the insertion-order guarantee of CPython dicts;
* Python floats are modelled as exact rationals.  All values the program feeds
  through `get_size_readable` and `%.2f` formatting in the claims below are
  dyadic rationals below `2^53`, on which binary floating point is exact, so
  the model agrees with CPython there;
* `list.sort` / `sorted` with `key=x[1], reverse=True` are stable descending
  sorts; they are embedded as `List.insertionSort` with the relation
  `sndGe a b := b.2 ≤ a.2`, which is proved stable below
  (`insertionSort_filter_snd`), and a stable descending sort is extensionally
  unique, so this is a faithful embedding.
-/

/-- One directory entry seen in the `files` component of an `os.walk` triple.
`isFile`/`isSymlink` are the results of `file_path.is_file()` and
`file_path.is_symlink()`; `statSize = some n` means `file_path.stat().st_size`
returns `n`, `statSize = none` means the `stat` call raises an `OSError`. -/
structure Entry where
  name : String
  isFile : Bool
  isSymlink : Bool
  statSize : Option Nat
deriving DecidableEq

/-- One `(root, dirs, files)` triple yielded by `os.walk`; `dirCount` is
`len(dirs)`. -/
structure WalkStep where
  root : String
  dirCount : Nat
  files : List Entry
deriving DecidableEq

/-- The mutable fields of a `DirectoryAnalyzer` instance. -/
structure AnalyzerState where
  total_files : Nat
  total_directories : Nat
  total_size : Nat
  file_types : List (String × Nat)
  largest_files : List (String × Nat)
deriving DecidableEq

/-- The state set up by `DirectoryAnalyzer.__init__`. -/
def initialState : AnalyzerState :=
  { total_files := 0, total_directories := 0, total_size := 0,
    file_types := [], largest_files := [] }

/-- Python `self.file_types[extension] = self.file_types.get(extension, 0) + 1` on an
insertion-ordered dict: increment in place if the key exists, else append the
key with count 1. -/
def tallyInc : List (String × Nat) → String → List (String × Nat)
  | [], k => [(k, 1)]
  | (k', v) :: rest, k =>
      if k' = k then (k', v + 1) :: rest else (k', v) :: tallyInc rest k

/-- Index of the last `'.'` in a character list (Python `str.rfind('.')`
restricted to a found result). -/
def lastDotIdx : List Char → Option Nat
  | [] => none
  | c :: rest =>
      match lastDotIdx rest with
      | some i => some (i + 1)
      | none => if c = '.' then some 0 else none

/-- ASCII lower-casing of a string (Python `str.lower()` restricted to ASCII,
which is all the program's claims exercise). -/
def strLower (s : String) : String := String.mk (s.data.map Char.toLower)

/-- Python `pathlib.PurePath.suffix` of a file name: the substring from the last dot,
provided that dot is neither the first nor the last character of the name;
otherwise the empty string. -/
def pySuffix (name : String) : String :=
  match lastDotIdx name.data with
  | some i =>
      if 0 < i ∧ i + 1 < name.data.length then String.mk (name.data.drop i) else ""
  | none => ""

/-- Python `extension = file_path.suffix.lower() or 'sans extension'` (the empty
string is falsy, so it is replaced by the sentinel). -/
def bucketName (name : String) : String :=
  let ext := strLower (pySuffix name)
  if ext = "" then "sans extension" else ext

/-- The body of the per-file `try` block of `analyze_directory`:
`total_files` is incremented first; then, if the entry is a regular
non-symlink file, `stat` is attempted; a failing `stat` raises, the exception
is caught by the surrounding `except (OSError, PermissionError)` and the loop
continues — the already performed count increment is retained. -/
def processFile (root : String) (s : AnalyzerState) (e : Entry) : AnalyzerState :=
  let s1 := { s with total_files := s.total_files + 1 }
  if e.isFile && !e.isSymlink then
    match e.statSize with
    | some sz =>
        { s1 with
          total_size := s1.total_size + sz,
          largest_files := s1.largest_files ++ [(root ++ "/" ++ e.name, sz)],
          file_types := tallyInc s1.file_types (bucketName e.name) }
    | none => s1
  else s1

/-- One iteration of the `for root, dirs, files in os.walk(...)` loop:
`total_directories += len(dirs)`, then the per-file loop. -/
def stepWalk (s : AnalyzerState) (w : WalkStep) : AnalyzerState :=
  w.files.foldl (processFile w.root)
    { s with total_directories := s.total_directories + w.dirCount }

/-- The whole `os.walk` loop of `analyze_directory`, starting from the freshly
initialised state. -/
def analyzeWalk (ws : List WalkStep) : AnalyzerState :=
  ws.foldl stepWalk initialState

/-- A directory tree: path, whether `scandir` on it succeeds (readable), its
subdirectories and its files. -/
inductive FsDir where
  | node (path : String) (readable : Bool) (subdirs : List FsDir) (files : List Entry)

mutual

/-- CPython `os.walk(top, topdown=True, onerror=None)`: yield the triple for
the current directory, then recurse into each subdirectory in listing order.
With the default `onerror=None`, an `OSError`/`PermissionError` raised by
`scandir` on a directory is silently ignored: that directory contributes no
triple and the generator never raises. -/
def FsDir.walk : FsDir → List WalkStep
  | .node path readable subdirs files =>
      if readable then
        WalkStep.mk path subdirs.length files :: FsDir.walkList subdirs
      else []

/-- Walk a list of sibling subdirectories in order. -/
def FsDir.walkList : List FsDir → List WalkStep
  | [] => []
  | d :: ds => FsDir.walk d ++ FsDir.walkList ds

end

/-- Method `analyze_directory` on a directory tree.  The second component is the list
of warning lines printed by the method.  The `except PermissionError` handler
around the walk would print
`"Avertissement: Permissions insuffisantes pour certains fichiers/répertoires"`,
but iterating `os.walk` never raises a filesystem error (its default
`onerror=None` swallows every `scandir` error) and the loop body catches all
per-file `OSError`s, so the handler is unreachable and no warning is printed. -/
def analyze_directory (root : FsDir) : AnalyzerState × List String :=
  (analyzeWalk root.walk, [])

/-- The sort relation used for both `get_top_files` and `get_top_extensions`:
`sorted`/`list.sort` with `key=lambda x: x[1], reverse=True` places `a` before
`b` exactly when `b.2 ≤ a.2`, keeping the original order on ties (stability). -/
def sndGe (a b : String × Nat) : Prop := b.2 ≤ a.2

instance : DecidableRel sndGe := fun a b => inferInstanceAs (Decidable (b.2 ≤ a.2))

instance : IsTotal (String × Nat) sndGe := ⟨fun a b => le_total b.2 a.2⟩

instance : IsTrans (String × Nat) sndGe :=
  ⟨fun _ _ _ hab hbc => le_trans hbc hab⟩

/-- Method `get_top_files(n)`: `self.largest_files.sort(key=lambda x: x[1],
reverse=True)` mutates the stored list (returned as the new state), then
`return self.largest_files[:n]`. -/
def get_top_files (s : AnalyzerState) (n : Nat) :
    AnalyzerState × List (String × Nat) :=
  let sorted := List.insertionSort sndGe s.largest_files
  ({ s with largest_files := sorted }, sorted.take n)

/-- Method `get_top_extensions(n)`: `sorted(self.file_types.items(), key=lambda x:
x[1], reverse=True)[:n]`; `dict.items()` iterates in insertion order and
`sorted` is stable. -/
def get_top_extensions (s : AnalyzerState) (n : Nat) : List (String × Nat) :=
  (List.insertionSort sndGe s.file_types).take n

/-- Round a rational to the nearest integer, ties to even — the rounding used
by Python `%.2f` formatting (on the values in this file the float being
formatted is exact, see the module docstring). -/
def roundHalfEven (q : ℚ) : ℤ :=
  let f := ⌊q⌋
  let r := q - f
  if r < 1 / 2 then f else if 1 / 2 < r then f + 1 else if f % 2 = 0 then f else f + 1

/-- Python `f"{x:.2f}"` for a non-negative value: round `100 * x` half-to-even
and print with exactly two fraction digits. -/
def formatQ2 (q : ℚ) : String :=
  let n := (roundHalfEven (100 * q)).toNat
  let ip := n / 100
  let fp := n % 100
  toString ip ++ "." ++ (if fp < 10 then "0" ++ toString fp else toString fp)

/-- The `for unit in ['o', 'Ko', 'Mo', 'Go', 'To']` loop of
`get_size_readable`: return at the first unit where the value is below 1024,
else divide by 1024 and continue; when the loop is exhausted, fall through to
the `'Po'` return. -/
def sizeLoop (q : ℚ) : List String → String
  | [] => formatQ2 q ++ " " ++ "Po"
  | u :: us => if q < 1024 then formatQ2 q ++ " " ++ u else sizeLoop (q / 1024) us

/-- Method `get_size_readable(size_bytes)`.  Every division by `1024.0` is exact in
binary floating point, so the rational model agrees with CPython for inputs
below `2^53`. -/
def get_size_readable (q : ℚ) : String :=
  sizeLoop q ["o", "Ko", "Mo", "Go", "To"]

/-- The unit tier `get_size_readable` ends up in for a byte count `b`:
the number of divisions by 1024 performed, capped at 5. -/
def sizeTier (b : Nat) : Nat :=
  if b < 1024 then 0
  else if b < 1024 ^ 2 then 1
  else if b < 1024 ^ 3 then 2
  else if b < 1024 ^ 4 then 3
  else if b < 1024 ^ 5 then 4
  else 5

/-- The unit suffix attached at each tier. -/
def tierUnit : Nat → String
  | 0 => "o"
  | 1 => "Ko"
  | 2 => "Mo"
  | 3 => "Go"
  | 4 => "To"
  | _ => "Po"

/-- Group a reversed digit list in threes, commas between groups
(the heart of Python `f"{n:,}"` for non-negative integers). -/
def groupRev : List Char → List Char
  | a :: b :: c :: d :: rest => a :: b :: c :: ',' :: groupRev (d :: rest)
  | l => l

/-- Python `f"{n:,}"` for a natural number: decimal digits with a thousands
separator every three digits. -/
def commaFmt (n : Nat) : String :=
  String.mk ((groupRev (toString n).data.reverse).reverse)

/-- Python `c * n` for a one-character string: `n` copies of `c`. -/
def repStr (c : Char) (n : Nat) : String := String.mk (List.replicate n c)

/-- Python `f"{s:<w}"`: left-align `s` in a field of width `w` (no
truncation). -/
def padRight (s : String) (w : Nat) : String :=
  s ++ repStr ' ' (w - s.data.length)

/-- Python `f"{s:>w}"`: right-align `s` in a field of width `w`. -/
def padLeft (s : String) (w : Nat) : String :=
  repStr ' ' (w - s.data.length) ++ s

/-- The verbose block of `generate_report`: the extension-frequency table
(printed only when `self.file_types` is non-empty) and the largest-files table
(printed only when `get_top_files(10)` is non-empty; note the call sorts
`largest_files` in place). -/
def verboseLines (s : AnalyzerState) : List String :=
  (if s.file_types.isEmpty then []
   else
     [repStr '-' 70, "TYPES DE FICHIERS LES PLUS FREQUENTS", repStr '-' 70,
      padRight "Extension" 20 ++ " " ++ (padRight "Nombre" 15 ++ " " ++ "Pourcentage"),
      repStr '-' 70]
     ++ (get_top_extensions s 10).map (fun ec =>
          padRight ec.1 20 ++ " " ++
            (padRight (commaFmt ec.2) 15 ++ " " ++
              (padLeft (formatQ2 ((ec.2 : ℚ) / (s.total_files : ℚ) * 100)) 6 ++ "%")))
     ++ [""])
  ++ (let top := (get_top_files s 10).2
      if top.isEmpty then []
      else
        [repStr '-' 70, "LES 10 FICHIERS LES PLUS VOLUMINEUX", repStr '-' 70,
         padRight "Taille" 15 ++ " " ++ "Chemin", repStr '-' 70]
        ++ top.map (fun fr => padRight (get_size_readable (fr.2 : ℚ)) 15 ++ " " ++ fr.1)
        ++ [""])

/-- The per-file accounting condition of `analyze_directory`:
`file_path.is_file() and not file_path.is_symlink()`. -/
def isRegularFile (e : Entry) : Bool := e.isFile && !e.isSymlink

/-- The extension bucket an entry contributes to the tally, if any: `some`
exactly when the entry passes the regular-file check and its `stat` succeeds. -/
def bucketOfEntry (e : Entry) : Option String :=
  if e.isFile && !e.isSymlink then e.statSize.map (fun _ => bucketName e.name) else none

/-- The sequence of extension buckets tallied during a walk, in encounter
order. -/
def bucketSeq (ws : List WalkStep) : List String :=
  (ws.map (fun w => w.files.filterMap bucketOfEntry)).flatten

/-- The first occurrence of each element of a list, in order of first
encounter. -/
def firstOccList : List String → List String
  | [] => []
  | x :: xs => x :: (firstOccList xs).filter (fun y => y != x)

/-- Whether `t` is a final segment of `s` (used to ask which unit suffix a
formatted size ends with). -/
def strTailEq (s t : String) : Bool :=
  decide (s.data.drop (s.data.length - t.data.length) = t.data)

/-- Following the words of claim C4 (not the source): the bucket is "the
lowercased text after the last dot in the filename (including the leading
dot)", with the sentinel only for names that have no dot at all.  Compared
against the source's `bucketName` below. -/
def specBucketC4 (name : String) : String :=
  match lastDotIdx name.data with
  | some i => strLower (String.mk (name.data.drop i))
  | none => "sans extension"

/-- The concrete directory for claim C2: a readable root holding one readable
7-byte file and one unreadable subdirectory that itself contains a file. -/
def c2Tree : FsDir :=
  .node "r" true
    [FsDir.node "r/locked" false [] [⟨"hidden.txt", true, false, some 100⟩]]
    [⟨"ok.txt", true, false, some 7⟩]

/-- Method `generate_report(verbose)` as the list of lines printed to stdout.
`pathStr` stands for `str(self.directory_path.absolute())` and `dateStr` for
the formatted `datetime.now()` — both are environment inputs. -/
def generate_report (s : AnalyzerState) (verbose : Bool)
    (pathStr dateStr : String) : List String :=
  [repStr '=' 70, repStr ' ' 15 ++ "RAPPORT D'ANALYSE DE REPERTOIRE", repStr '=' 70, ""]
  ++ ["Répertoire analysé : " ++ pathStr, "Date d'analyse     : " ++ dateStr, ""]
  ++ [repStr '-' 70, "STATISTIQUES GENERALES", repStr '-' 70,
      "Nombre total de fichiers      : " ++ commaFmt s.total_files,
      "Nombre de sous-répertoires    : " ++ commaFmt s.total_directories,
      "Taille totale occupée         : " ++ get_size_readable (s.total_size : ℚ),
      "                                 (" ++ (commaFmt s.total_size ++ " octets)")]
  ++ (if 0 < s.total_files then
        ["Taille moyenne par fichier    : " ++
          get_size_readable ((s.total_size : ℚ) / (s.total_files : ℚ))]
      else [])
  ++ [""]
  ++ (if verbose then verboseLines s else [])
  ++ [repStr '-' 70, "RESUME", repStr '-' 70]
  ++ (if s.total_files = 0 then
        ["Le répertoire est vide (aucun fichier trouvé)."]
      else
        ["Le répertoire contient " ++ (commaFmt s.total_files ++ " fichier(s)"),
         "répartis dans " ++ (commaFmt s.total_directories ++ " sous-répertoire(s)"),
         "pour un total de " ++ (get_size_readable (s.total_size : ℚ) ++ ".")])
  ++ [repStr '=' 70]

/-! ### Characterisations of the per-file step -/

/-- An entry failing the `is_file/is_symlink` guard only bumps `total_files`. -/
theorem processFile_guard_false (root : String) (s : AnalyzerState) (e : Entry)
    (hf : (e.isFile && !e.isSymlink) = false) :
    processFile root s e = { s with total_files := s.total_files + 1 } := by
  simp [processFile, hf]

/-- A regular entry whose `stat` succeeds updates all four aggregates. -/
theorem processFile_guard_true (root : String) (s : AnalyzerState) (e : Entry) (sz : Nat)
    (hf : (e.isFile && !e.isSymlink) = true) (hs : e.statSize = some sz) :
    processFile root s e =
      { s with total_files := s.total_files + 1,
               total_size := s.total_size + sz,
               largest_files := s.largest_files ++ [(root ++ "/" ++ e.name, sz)],
               file_types := tallyInc s.file_types (bucketName e.name) } := by
  simp [processFile, hf, hs]

/-! ### C1 -/

/-- C1 (amended): when the metadata of a regular file cannot be stat'ed, the
size accumulation, the FileRecord append and the extension tally are all
skipped, but the `total_files` increment has already happened and is retained:
the count is an independent prior step, not coupled to the size read. -/
theorem c1_stat_failure_keeps_count (root : String) (s : AnalyzerState) (e : Entry)
    (h : e.statSize = none) :
    processFile root s e = { s with total_files := s.total_files + 1 } := by
  unfold processFile
  cases hf : (e.isFile && !e.isSymlink) <;> simp [h]

/-- Witness for `c1_stat_failure_keeps_count` at the concrete entry
`x.txt` with a failing `stat`. -/
theorem c1_stat_failure_keeps_count_w :
    (Entry.mk "x.txt" true false none).statSize = none
    ∧ processFile "r" initialState (Entry.mk "x.txt" true false none)
        = { initialState with total_files := 1 } :=
  ⟨rfl, c1_stat_failure_keeps_count "r" initialState (Entry.mk "x.txt" true false none) rfl⟩

/-- C1 counterexample: a walk seeing a single regular file whose `stat` fails
leaves `total_size`, the tally and the record list unchanged, but the total
file count becomes 1, not 0 — the claim says the count increment is also
skipped. -/
theorem c1_claim_cex :
    (analyzeWalk [⟨"r", 0, [⟨"x.txt", true, false, none⟩]⟩]).total_files = 1
    ∧ (analyzeWalk [⟨"r", 0, [⟨"x.txt", true, false, none⟩]⟩]).total_size = 0
    ∧ (analyzeWalk [⟨"r", 0, [⟨"x.txt", true, false, none⟩]⟩]).file_types = []
    ∧ (analyzeWalk [⟨"r", 0, [⟨"x.txt", true, false, none⟩]⟩]).largest_files = [] :=
  ⟨rfl, rfl, rfl, rfl⟩

/-! ### C2 -/

/-- C2: on a directory with one unreadable subdirectory and a readable 7-byte
sibling file, traversal silently skips the unreadable subtree and the report
data reflects the readable sibling (and counts the subdirectory), but the
warning-line list is empty: `os.walk`'s default `onerror=None` swallows the
`PermissionError` from `scandir`, so the `except PermissionError` handler
never runs and no warning line is ever printed. -/
theorem c2_no_warning_partial_data :
    (analyze_directory c2Tree).2 = []
    ∧ (analyze_directory c2Tree).1.total_files = 1
    ∧ (analyze_directory c2Tree).1.total_directories = 1
    ∧ (analyze_directory c2Tree).1.total_size = 7
    ∧ (analyze_directory c2Tree).1.largest_files = [("r/ok.txt", 7)]
    ∧ (analyze_directory c2Tree).1.file_types = [(".txt", 1)] :=
  ⟨rfl, rfl, rfl, rfl, rfl, rfl⟩

/-! ### C5 -/

/-- The size invariant is preserved by one per-file step. -/
theorem sizeInv_processFile (root : String) (s : AnalyzerState) (e : Entry)
    (h : (s.largest_files.map Prod.snd).sum = s.total_size) :
    ((processFile root s e).largest_files.map Prod.snd).sum
      = (processFile root s e).total_size := by
  unfold processFile
  cases hf : (e.isFile && !e.isSymlink)
  · simpa using h
  · cases hs : e.statSize
    · simpa using h
    · simp [h]

/-- The size invariant is preserved by the per-file loop. -/
theorem sizeInv_foldl_files (root : String) :
    ∀ (es : List Entry) (s : AnalyzerState),
      (s.largest_files.map Prod.snd).sum = s.total_size →
      (((es.foldl (processFile root) s).largest_files.map Prod.snd).sum
        = (es.foldl (processFile root) s).total_size)
  | [], _, h => h
  | e :: rest, s, h =>
      sizeInv_foldl_files root rest (processFile root s e) (sizeInv_processFile root s e h)

/-- The size invariant is preserved by the walk loop. -/
theorem sizeInv_foldl_steps :
    ∀ (ws : List WalkStep) (s : AnalyzerState),
      (s.largest_files.map Prod.snd).sum = s.total_size →
      (((ws.foldl stepWalk s).largest_files.map Prod.snd).sum
        = (ws.foldl stepWalk s).total_size)
  | [], _, h => h
  | w :: rest, s, h =>
      sizeInv_foldl_steps rest (stepWalk s w) (sizeInv_foldl_files w.root w.files _ h)

/-- C5: at every point during and after traversal — i.e. after any walked
prefix `ws` plus any partially processed file list `fs` of the current
directory — the sum of the sizes stored in `largest_files` equals
`total_size`. -/
theorem c5_sum_sizes_eq_total_size (ws : List WalkStep) (root : String) (fs : List Entry) :
    ((fs.foldl (processFile root) (analyzeWalk ws)).largest_files.map Prod.snd).sum
      = (fs.foldl (processFile root) (analyzeWalk ws)).total_size :=
  sizeInv_foldl_files root fs (analyzeWalk ws)
    (sizeInv_foldl_steps ws initialState rfl)

/-! ### C6 -/

/-- Joint effect of the per-file loop on a directory whose entries are all
either symlinks or regular stat-able files. -/
theorem foldl_files_stats (root : String) :
    ∀ (es : List Entry) (s : AnalyzerState),
      (∀ e ∈ es, e.isSymlink = true ∨ (isRegularFile e = true ∧ e.statSize.isSome = true)) →
      ((es.foldl (processFile root) s).total_files = s.total_files + es.length
        ∧ (es.foldl (processFile root) s).total_size
            = s.total_size + ((es.filter isRegularFile).map (fun e => e.statSize.getD 0)).sum
        ∧ (es.foldl (processFile root) s).file_types
            = (es.filter isRegularFile).foldl
                (fun t e => tallyInc t (bucketName e.name)) s.file_types) := by
  intro es
  induction es with
  | nil => intro s _; simp
  | cons e rest ih =>
      intro s h
      have hrest := fun e' he' => h e' (List.mem_cons_of_mem _ he')
      rcases h e (List.mem_cons_self e rest) with hsym | ⟨hreg, hsome⟩
      · have hf : (e.isFile && !e.isSymlink) = false := by simp [hsym]
        have hfr : isRegularFile e = false := by simp [isRegularFile, hsym]
        have step : (e :: rest).foldl (processFile root) s
            = rest.foldl (processFile root) { s with total_files := s.total_files + 1 } := by
          rw [List.foldl_cons, processFile_guard_false root s e hf]
        obtain ⟨h1, h2, h3⟩ := ih { s with total_files := s.total_files + 1 } hrest
        refine ⟨?_, ?_, ?_⟩
        · rw [step, h1]; simp; omega
        · rw [step, h2]; simp [List.filter_cons, hfr]
        · rw [step, h3]; simp [List.filter_cons, hfr]
      · obtain ⟨sz, hsz⟩ := Option.isSome_iff_exists.mp hsome
        have hf : (e.isFile && !e.isSymlink) = true := hreg
        have step : (e :: rest).foldl (processFile root) s
            = rest.foldl (processFile root)
                { s with total_files := s.total_files + 1,
                         total_size := s.total_size + sz,
                         largest_files := s.largest_files ++ [(root ++ "/" ++ e.name, sz)],
                         file_types := tallyInc s.file_types (bucketName e.name) } := by
          rw [List.foldl_cons, processFile_guard_true root s e sz hf hsz]
        obtain ⟨h1, h2, h3⟩ := ih _ hrest
        refine ⟨?_, ?_, ?_⟩
        · rw [step, h1]; simp; omega
        · rw [step, h2]; simp [List.filter_cons, hreg, hsz]; omega
        · rw [step, h3]; simp [List.filter_cons, hreg]

/-- Under the same dichotomy, every entry lands in exactly one of the two
filters, so the entry count splits into regular files plus symlinks. -/
theorem length_split_regular_symlink :
    ∀ (es : List Entry),
      (∀ e ∈ es, e.isSymlink = true ∨ (isRegularFile e = true ∧ e.statSize.isSome = true)) →
      es.length = (es.filter isRegularFile).length + (es.filter (fun e => e.isSymlink)).length := by
  intro es
  induction es with
  | nil => intro _; simp
  | cons e rest ih =>
      intro h
      have hrest := ih fun e' he' => h e' (List.mem_cons_of_mem _ he')
      rcases h e (List.mem_cons_self e rest) with hsym | ⟨hreg, _⟩
      · have hfr : isRegularFile e = false := by simp [isRegularFile, hsym]
        simp [List.filter_cons, hfr, hsym, hrest]; omega
      · have hcopy := hreg
        simp only [isRegularFile, Bool.and_eq_true, Bool.not_eq_true'] at hcopy
        have hns : e.isSymlink = false := hcopy.2
        simp [List.filter_cons, hreg, hns, hrest]; omega

/-- C6: walking a directory whose entries are `k` regular stat-able files plus
any number of symbolic links gives `total_files = k + number of symlinks`,
`total_size = sum of the regular files' sizes`, and an extension tally built
from the regular files alone (symlinks touch neither size nor tally). -/
theorem c6_symlink_counting (root : String) (es : List Entry)
    (h : ∀ e ∈ es, e.isSymlink = true ∨ (isRegularFile e = true ∧ e.statSize.isSome = true)) :
    (analyzeWalk [⟨root, 0, es⟩]).total_files
        = (es.filter isRegularFile).length + (es.filter (fun e => e.isSymlink)).length
    ∧ (analyzeWalk [⟨root, 0, es⟩]).total_size
        = ((es.filter isRegularFile).map (fun e => e.statSize.getD 0)).sum
    ∧ (analyzeWalk [⟨root, 0, es⟩]).file_types
        = (es.filter isRegularFile).foldl (fun t e => tallyInc t (bucketName e.name)) [] := by
  have hw : analyzeWalk [⟨root, 0, es⟩] = es.foldl (processFile root) initialState := rfl
  obtain ⟨h1, h2, h3⟩ := foldl_files_stats root es initialState h
  refine ⟨?_, ?_, ?_⟩
  · rw [hw, h1, length_split_regular_symlink es h]; simp [initialState]
  · rw [hw, h2]; simp [initialState]
  · rw [hw, h3]; rfl

/-- Witness for `c6_symlink_counting`: one 3-byte regular file plus one
symlink. -/
theorem c6_symlink_counting_w :
    (analyzeWalk [⟨"r", 0, [⟨"a.txt", true, false, some 3⟩, ⟨"lnk.txt", true, true, some 9⟩]⟩]).total_files
        = ([(⟨"a.txt", true, false, some 3⟩ : Entry), ⟨"lnk.txt", true, true, some 9⟩].filter isRegularFile).length
          + ([(⟨"a.txt", true, false, some 3⟩ : Entry), ⟨"lnk.txt", true, true, some 9⟩].filter (fun e => e.isSymlink)).length
    ∧ (analyzeWalk [⟨"r", 0, [⟨"a.txt", true, false, some 3⟩, ⟨"lnk.txt", true, true, some 9⟩]⟩]).total_size
        = (([(⟨"a.txt", true, false, some 3⟩ : Entry), ⟨"lnk.txt", true, true, some 9⟩].filter isRegularFile).map (fun e => e.statSize.getD 0)).sum
    ∧ (analyzeWalk [⟨"r", 0, [⟨"a.txt", true, false, some 3⟩, ⟨"lnk.txt", true, true, some 9⟩]⟩]).file_types
        = ([(⟨"a.txt", true, false, some 3⟩ : Entry), ⟨"lnk.txt", true, true, some 9⟩].filter isRegularFile).foldl
            (fun t e => tallyInc t (bucketName e.name)) [] :=
  c6_symlink_counting "r" [⟨"a.txt", true, false, some 3⟩, ⟨"lnk.txt", true, true, some 9⟩]
    (by decide)

/-! ### C8 -/

/-- One per-file step only ever appends to `largest_files`. -/
theorem largest_files_processFile (root : String) (s : AnalyzerState) (e : Entry) :
    ∃ t, (processFile root s e).largest_files = s.largest_files ++ t := by
  unfold processFile
  cases hf : (e.isFile && !e.isSymlink)
  · exact ⟨[], by simp⟩
  · cases hs : e.statSize with
    | none => exact ⟨[], by simp⟩
    | some sz => exact ⟨[(root ++ "/" ++ e.name, sz)], by simp⟩

/-- The per-file loop only ever appends to `largest_files`. -/
theorem largest_files_foldl_files (root : String) :
    ∀ (es : List Entry) (s : AnalyzerState),
      ∃ t, (es.foldl (processFile root) s).largest_files = s.largest_files ++ t := by
  intro es
  induction es with
  | nil => intro s; exact ⟨[], by simp⟩
  | cons e rest ih =>
      intro s
      obtain ⟨u, hu⟩ := largest_files_processFile root s e
      obtain ⟨t, ht⟩ := ih (processFile root s e)
      exact ⟨u ++ t, by rw [List.foldl_cons, ht, hu, List.append_assoc]⟩

/-- The walk loop only ever appends to `largest_files`. -/
theorem largest_files_foldl_steps :
    ∀ (ws : List WalkStep) (s : AnalyzerState),
      ∃ t, (ws.foldl stepWalk s).largest_files = s.largest_files ++ t := by
  intro ws
  induction ws with
  | nil => intro s; exact ⟨[], by simp⟩
  | cons w rest ih =>
      intro s
      obtain ⟨u, hu⟩ := largest_files_foldl_files w.root w.files
        { s with total_directories := s.total_directories + w.dirCount }
      obtain ⟨t, ht⟩ := ih (stepWalk s w)
      exact ⟨u ++ t, by
        rw [List.foldl_cons, ht]
        show (stepWalk s w).largest_files ++ t = _
        rw [stepWalk, hu, List.append_assoc]⟩

/-- C8 (amended): during traversal the FileRecord list is append-only in
discovery order and no stored record is ever modified; but `get_top_files`
does mutate the sequence's ordering, replacing it by its stable
descending-by-size sort — a permutation of the records, none added, removed
or altered. -/
theorem c8_append_only_amended :
    (∀ (ws more : List WalkStep), ∃ t,
        (analyzeWalk (ws ++ more)).largest_files = (analyzeWalk ws).largest_files ++ t)
    ∧ (∀ (s : AnalyzerState) (n : Nat),
        (get_top_files s n).1.largest_files = List.insertionSort sndGe s.largest_files
        ∧ ((get_top_files s n).1.largest_files).Perm s.largest_files) := by
  refine ⟨fun ws more => ?_, fun s n => ⟨rfl, List.perm_insertionSort sndGe s.largest_files⟩⟩
  rw [analyzeWalk, analyzeWalk, List.foldl_append]
  exact largest_files_foldl_steps more (List.foldl stepWalk initialState ws)

/-- C8 counterexample: after two files are discovered (sizes 1 then 2),
calling `get_top_files` reorders the stored FileRecord sequence in place, so
the sequence's ordering is not left as the discovery order the claim
promises. -/
theorem c8_claim_cex :
    (analyzeWalk [⟨"r", 0, [⟨"a.txt", true, false, some 1⟩, ⟨"b.txt", true, false, some 2⟩]⟩]).largest_files
        = [("r/a.txt", 1), ("r/b.txt", 2)]
    ∧ (get_top_files (analyzeWalk [⟨"r", 0, [⟨"a.txt", true, false, some 1⟩, ⟨"b.txt", true, false, some 2⟩]⟩]) 10).1.largest_files
        = [("r/b.txt", 2), ("r/a.txt", 1)]
    ∧ ([("r/b.txt", 2), ("r/a.txt", 1)] : List (String × Nat))
        ≠ [("r/a.txt", 1), ("r/b.txt", 2)] :=
  ⟨rfl, by decide, by decide⟩

/-! ### Stability of the embedded sort -/

/-- Inserting an element whose key equals `c` puts it in front of every later
element with key `c`: elements skipped on the way in have strictly larger
keys. -/
theorem orderedInsert_filter_snd_pos (a : String × Nat) (c : Nat) (ha : a.2 = c) :
    ∀ l : List (String × Nat),
      (List.orderedInsert sndGe a l).filter (fun x => x.2 == c)
        = a :: l.filter (fun x => x.2 == c)
  | [] => by simp [List.orderedInsert, ha]
  | b :: bs => by
      rw [List.orderedInsert]
      by_cases hab : sndGe a b
      · rw [if_pos hab]
        simp [List.filter_cons, ha]
      · rw [if_neg hab]
        have hab' : ¬ b.2 ≤ a.2 := hab
        have hbc : (b.2 == c) = false := by
          simp only [beq_eq_false_iff_ne]
          omega
        simp [List.filter_cons, hbc, orderedInsert_filter_snd_pos a c ha bs]

/-- Inserting an element whose key differs from `c` leaves the key-`c`
subsequence untouched. -/
theorem orderedInsert_filter_snd_neg (a : String × Nat) (c : Nat) (ha : a.2 ≠ c) :
    ∀ l : List (String × Nat),
      (List.orderedInsert sndGe a l).filter (fun x => x.2 == c)
        = l.filter (fun x => x.2 == c)
  | [] => by simp [List.orderedInsert, ha]
  | b :: bs => by
      rw [List.orderedInsert]
      by_cases hab : sndGe a b
      · rw [if_pos hab]; simp [List.filter_cons, ha]
      · rw [if_neg hab]
        simp [List.filter_cons, orderedInsert_filter_snd_neg a c ha bs]

/-- Stability of the embedded Python sort: for every key value `c`, sorting
preserves the original relative order of the elements with key `c`. -/
theorem insertionSort_filter_snd (c : Nat) :
    ∀ l : List (String × Nat),
      (List.insertionSort sndGe l).filter (fun x => x.2 == c)
        = l.filter (fun x => x.2 == c)
  | [] => rfl
  | a :: l => by
      rw [List.insertionSort]
      by_cases ha : a.2 = c
      · rw [orderedInsert_filter_snd_pos a c ha (List.insertionSort sndGe l),
            insertionSort_filter_snd c l]
        simp [List.filter_cons, ha]
      · rw [orderedInsert_filter_snd_neg a c ha (List.insertionSort sndGe l),
            insertionSort_filter_snd c l]
        simp [List.filter_cons, ha]

/-! ### C7 -/

/-- C7: `get_top_files(n)` returns the first `n` elements of the stable
descending-by-size sort of the records: at most `n` entries (`min` with the
list length); sorted so every earlier entry's size is at least every later
one's; for each size value the returned entries are an initial segment of the
discovery-ordered entries of that size (stable tie-breaking); and the result
is a sublist — by identity — of the full stored file list as it stands after
the call, which is itself a permutation of the records collected during
traversal. -/
theorem c7_top_files_spec (s : AnalyzerState) (n : Nat) :
    ((get_top_files s n).2).length = min n s.largest_files.length
    ∧ List.Sorted sndGe (get_top_files s n).2
    ∧ (∀ c : Nat, ∃ t, s.largest_files.filter (fun x => x.2 == c)
        = ((get_top_files s n).2).filter (fun x => x.2 == c) ++ t)
    ∧ ((get_top_files s n).2).Sublist (get_top_files s n).1.largest_files
    ∧ ((get_top_files s n).1.largest_files).Perm s.largest_files := by
  refine ⟨?_, ?_, ?_, ?_, ?_⟩
  · simp [get_top_files, List.length_take, List.length_insertionSort]
  · simp only [get_top_files]
    exact List.Pairwise.sublist (List.take_sublist n _)
      (List.sorted_insertionSort sndGe s.largest_files)
  · intro c
    refine ⟨((List.insertionSort sndGe s.largest_files).drop n).filter (fun x => x.2 == c), ?_⟩
    simp only [get_top_files]
    conv_lhs => rw [← insertionSort_filter_snd c s.largest_files,
      ← List.take_append_drop n (List.insertionSort sndGe s.largest_files)]
    rw [List.filter_append]
  · simp only [get_top_files]
    exact List.take_sublist n _
  · simp only [get_top_files]
    exact List.perm_insertionSort sndGe s.largest_files

/-! ### C10 -/

/-- Keys of the tally after an increment: unchanged if the key was present,
appended at the end if it is new. -/
theorem keys_tallyInc :
    ∀ (t : List (String × Nat)) (k : String),
      (tallyInc t k).map Prod.fst
        = if k ∈ t.map Prod.fst then t.map Prod.fst else t.map Prod.fst ++ [k]
  | [], k => by simp [tallyInc]
  | (k', v) :: rest, k => by
      rw [tallyInc]
      by_cases hk : k' = k
      · subst hk; simp
      · rw [if_neg hk]
        simp only [List.map_cons]
        rw [keys_tallyInc rest k]
        by_cases hm : k ∈ rest.map Prod.fst
        · rw [if_pos hm, if_pos (by simp [hm])]
        · have hnotin : k ∉ k' :: rest.map Prod.fst := by
            simp only [List.mem_cons, not_or]
            exact ⟨fun h => hk h.symm, hm⟩
          rw [if_neg hm, if_neg hnotin, List.cons_append]

/-- Removing every copy of `k` commutes with taking first occurrences. -/
theorem firstOccList_filter (k : String) :
    ∀ l : List String,
      (firstOccList l).filter (fun y => y != k)
        = firstOccList (l.filter (fun y => y != k))
  | [] => rfl
  | x :: xs => by
      rw [firstOccList]
      by_cases hxk : x = k
      · subst hxk
        simp only [List.filter_cons, bne_self_eq_false, if_false, Bool.false_eq_true]
        rw [List.filter_filter, ← firstOccList_filter x xs]
        simp only [Bool.and_self]
      · have hbk : (x != k) = true := by simpa [bne_iff_ne] using hxk
        simp only [List.filter_cons, hbk, if_true]
        rw [firstOccList, ← firstOccList_filter k xs]
        congr 1
        rw [List.filter_filter, List.filter_filter]
        exact List.filter_congr fun a _ => Bool.and_comm _ _

/-- Keys of the tally after processing a whole bucket sequence: the old keys
followed by the first occurrences of the genuinely new buckets, in encounter
order. -/
theorem keys_foldl_tallyInc :
    ∀ (seq : List String) (t : List (String × Nat)),
      (seq.foldl tallyInc t).map Prod.fst
        = t.map Prod.fst
          ++ firstOccList (seq.filter (fun k => decide (k ∉ t.map Prod.fst)))
  | [], t => by simp [firstOccList]
  | k :: rest, t => by
      by_cases hk : k ∈ t.map Prod.fst
      · have hkeys : (tallyInc t k).map Prod.fst = t.map Prod.fst := by
          rw [keys_tallyInc t k, if_pos hk]
        rw [List.foldl_cons, keys_foldl_tallyInc rest (tallyInc t k), hkeys,
          List.filter_cons]
        simp [hk]
      · have hkeys : (tallyInc t k).map Prod.fst = t.map Prod.fst ++ [k] := by
          rw [keys_tallyInc t k, if_neg hk]
        rw [List.foldl_cons, keys_foldl_tallyInc rest (tallyInc t k), hkeys,
          List.filter_cons]
        have hdk : (decide (k ∉ t.map Prod.fst)) = true := by simp [hk]
        rw [hdk, if_pos rfl, firstOccList, List.append_assoc, List.singleton_append,
          firstOccList_filter k (rest.filter (fun y => decide (y ∉ t.map Prod.fst))),
          List.filter_filter]
        congr 3
        apply List.filter_congr
        intro a _
        by_cases h1 : a = k <;> by_cases h2 : a ∈ t.map Prod.fst <;>
          simp [h1, h2, List.mem_append]

/-- The tally update performed by one per-file step, expressed through
`bucketOfEntry`. -/
theorem file_types_processFile (root : String) (s : AnalyzerState) (e : Entry) :
    (processFile root s e).file_types
      = (match bucketOfEntry e with
         | some b => tallyInc s.file_types b
         | none => s.file_types) := by
  unfold processFile bucketOfEntry
  cases hf : (e.isFile && !e.isSymlink)
  · simp
  · cases hs : e.statSize <;> simp

/-- The tally after the per-file loop is the fold of `tallyInc` over the
buckets of the processed entries, in order. -/
theorem file_types_foldl_files (root : String) :
    ∀ (es : List Entry) (s : AnalyzerState),
      (es.foldl (processFile root) s).file_types
        = (es.filterMap bucketOfEntry).foldl tallyInc s.file_types
  | [], _ => rfl
  | e :: rest, s => by
      rw [List.foldl_cons, List.filterMap_cons,
        file_types_foldl_files root rest (processFile root s e),
        file_types_processFile root s e]
      cases hb : bucketOfEntry e <;> simp

/-- The tally after the walk loop is the fold of `tallyInc` over the whole
bucket sequence. -/
theorem file_types_foldl_steps :
    ∀ (ws : List WalkStep) (s : AnalyzerState),
      (ws.foldl stepWalk s).file_types = (bucketSeq ws).foldl tallyInc s.file_types
  | [], _ => by simp [bucketSeq]
  | w :: rest, s => by
      rw [List.foldl_cons, file_types_foldl_steps rest (stepWalk s w)]
      have h1 : (stepWalk s w).file_types
          = (w.files.filterMap bucketOfEntry).foldl tallyInc s.file_types :=
        file_types_foldl_files w.root w.files
          { s with total_directories := s.total_directories + w.dirCount }
      rw [h1, ← List.foldl_append]
      rfl

/-- C10: `get_top_extensions` is deterministic for a fixed listing order and
breaks count ties by first-encounter order: (i) the stable sort keeps, for
every count value, the tally's insertion order (stability); (ii) the returned
list is an initial segment of that sorted list; (iii) the tally's key order is
exactly the order of first encounter of the buckets during traversal. -/
theorem c10_extension_tie_order (ws : List WalkStep) (n : Nat) :
    (∀ c : Nat,
        (List.insertionSort sndGe (analyzeWalk ws).file_types).filter (fun x => x.2 == c)
          = (analyzeWalk ws).file_types.filter (fun x => x.2 == c))
    ∧ (∃ t, List.insertionSort sndGe (analyzeWalk ws).file_types
          = get_top_extensions (analyzeWalk ws) n ++ t)
    ∧ (analyzeWalk ws).file_types.map Prod.fst = firstOccList (bucketSeq ws) := by
  refine ⟨fun c => insertionSort_filter_snd c _, ?_, ?_⟩
  · refine ⟨(List.insertionSort sndGe (analyzeWalk ws).file_types).drop n, ?_⟩
    simp only [get_top_extensions]
    exact (List.take_append_drop n _).symm
  · rw [analyzeWalk, file_types_foldl_steps ws initialState, keys_foldl_tallyInc]
    have hpred : (fun k => decide (k ∉ (initialState.file_types.map Prod.fst : List String)))
        = fun _ => true := by
      funext k; simp [initialState]
    rw [hpred, List.filter_true,
      show (List.map Prod.fst initialState.file_types : List String) = [] from rfl,
      List.nil_append]

/-! ### C3 -/

/-- C3 counterexample: at `1024^5` bytes the loop exhausts all five listed
units and falls through to the sixth suffix `Po`; the output ends in none of
the five claimed unit suffixes, so a unit beyond the TiB-equivalent tier does
appear. -/
theorem c3_claim_cex :
    get_size_readable ((1024 ^ 5 : Nat) : ℚ) = "1.00 Po"
    ∧ (["o", "Ko", "Mo", "Go", "To"].all
        fun u => !(strTailEq "1.00 Po" (" " ++ u))) = true := by
  constructor
  · rw [show ((1024 ^ 5 : Nat) : ℚ) = 1024 ^ 5 by push_cast; ring,
      get_size_readable, sizeLoop, if_neg (by norm_num),
      show (1024 : ℚ) ^ 5 / 1024 = 1024 ^ 4 by norm_num,
      sizeLoop, if_neg (by norm_num),
      show (1024 : ℚ) ^ 4 / 1024 = 1024 ^ 3 by norm_num,
      sizeLoop, if_neg (by norm_num),
      show (1024 : ℚ) ^ 3 / 1024 = 1024 ^ 2 by norm_num,
      sizeLoop, if_neg (by norm_num),
      show (1024 : ℚ) ^ 2 / 1024 = 1024 by norm_num,
      sizeLoop, if_neg (by norm_num),
      show (1024 : ℚ) / 1024 = 1 by norm_num,
      sizeLoop,
      show formatQ2 1 = "1.00" by
        have h100 : roundHalfEven (100 * 1) = 100 := by norm_num [roundHalfEven]
        rw [formatQ2, h100]
        decide]
    decide
  · decide

/-- C3 (amended): `get_size_readable` divides through the tiers
`o, Ko, Mo, Go, To` (the bytes…TiB tiers) until the value drops below 1024,
and prints the value to two fraction digits with that tier's suffix — but
when the value is still at least 1024 at the `To` tier it divides once more
and uses the additional `Po` suffix, so byte counts of `1024^5` and above
leave the claimed five-unit range. -/
theorem c3_tier_characterization (b : Nat) :
    get_size_readable (b : ℚ)
      = formatQ2 ((b : ℚ) / 1024 ^ sizeTier b) ++ " " ++ tierUnit (sizeTier b) := by
  have cond : ∀ k : Nat, ((b : ℚ) / 1024 ^ k < 1024 ↔ b < 1024 ^ (k + 1)) := by
    intro k
    rw [div_lt_iff₀ (by positivity)]
    rw [show (1024 : ℚ) * 1024 ^ k = ((1024 ^ (k + 1) : ℕ) : ℚ) by
      push_cast [pow_succ]; ring]
    exact Nat.cast_lt
  have dstep : ∀ k : Nat, (b : ℚ) / 1024 ^ k / 1024 = (b : ℚ) / 1024 ^ (k + 1) := by
    intro k; rw [div_div, ← pow_succ]
  have hb0 : (b : ℚ) = (b : ℚ) / 1024 ^ 0 := by norm_num
  rw [get_size_readable, hb0, sizeLoop]
  by_cases h1 : b < 1024 ^ 1
  · have ht : sizeTier b = 0 := by
      unfold sizeTier; rw [if_pos (by simpa using h1)]
    rw [if_pos ((cond 0).mpr h1), ht]
    norm_num [tierUnit]
  · rw [if_neg (fun hq => h1 ((cond 0).mp hq)), dstep 0, sizeLoop]
    by_cases h2 : b < 1024 ^ 2
    · have ht : sizeTier b = 1 := by
        unfold sizeTier; rw [if_neg (by simpa using h1), if_pos h2]
      rw [if_pos ((cond 1).mpr h2), ht]
      norm_num [tierUnit]
    · rw [if_neg (fun hq => h2 ((cond 1).mp hq)), dstep 1, sizeLoop]
      by_cases h3 : b < 1024 ^ 3
      · have ht : sizeTier b = 2 := by
          unfold sizeTier; rw [if_neg (by simpa using h1), if_neg h2, if_pos h3]
        rw [if_pos ((cond 2).mpr h3), ht]
        norm_num [tierUnit]
      · rw [if_neg (fun hq => h3 ((cond 2).mp hq)), dstep 2, sizeLoop]
        by_cases h4 : b < 1024 ^ 4
        · have ht : sizeTier b = 3 := by
            unfold sizeTier
            rw [if_neg (by simpa using h1), if_neg h2, if_neg h3, if_pos h4]
          rw [if_pos ((cond 3).mpr h4), ht]
          norm_num [tierUnit]
        · rw [if_neg (fun hq => h4 ((cond 3).mp hq)), dstep 3, sizeLoop]
          by_cases h5 : b < 1024 ^ 5
          · have ht : sizeTier b = 4 := by
              unfold sizeTier
              rw [if_neg (by simpa using h1), if_neg h2, if_neg h3, if_neg h4,
                if_pos h5]
            rw [if_pos ((cond 4).mpr h5), ht]
            norm_num [tierUnit]
          · have ht : sizeTier b = 5 := by
              unfold sizeTier
              rw [if_neg (by simpa using h1), if_neg h2, if_neg h3, if_neg h4,
                if_neg h5]
            rw [if_neg (fun hq => h5 ((cond 4).mp hq)), dstep 4, sizeLoop, ht]
            norm_num [tierUnit]

/-! ### C4 -/

/-- C4 counterexample: the dotfile `.bashrc` does contain a dot, and the
lowercased text from its last dot is `.bashrc` itself (per the claim's
reading, `specBucketC4`), yet the code buckets it under the sentinel, because
`pathlib`'s suffix is empty when the only dot is the leading character. -/
theorem c4_claim_cex :
    (analyzeWalk [⟨"r", 0, [⟨".bashrc", true, false, some 5⟩]⟩]).file_types
        = [("sans extension", 1)]
    ∧ specBucketC4 ".bashrc" = ".bashrc"
    ∧ (".bashrc" : String) ≠ "sans extension" := by
  refine ⟨rfl, rfl, by decide⟩

/-- C4 (amended): for every regular stat-able file, the tally key used is
`bucketName`, and `bucketName` is the lowercased text from the last dot of
the filename only when that dot is neither the first nor the last character
of the name; in every other case — no dot at all, a leading-dot-only name
such as `.bashrc`, or a trailing dot — the sentinel `sans extension` is
used. -/
theorem c4_bucket_characterization (root : String) (s : AnalyzerState) (e : Entry)
    (hf : (e.isFile && !e.isSymlink) = true) (sz : Nat) (hs : e.statSize = some sz) :
    (processFile root s e).file_types = tallyInc s.file_types (bucketName e.name)
    ∧ bucketName e.name =
        (match lastDotIdx e.name.data with
         | some i =>
             if 0 < i ∧ i + 1 < e.name.data.length
             then strLower (String.mk (e.name.data.drop i))
             else "sans extension"
         | none => "sans extension") := by
  constructor
  · simp [processFile, hf, hs]
  · unfold bucketName pySuffix
    cases hl : lastDotIdx e.name.data with
    | none =>
        dsimp only
        simp [strLower]
    | some i =>
        dsimp only
        by_cases hcond : 0 < i ∧ i + 1 < e.name.data.length
        · rw [if_pos hcond, if_pos hcond]
          have hne : strLower (String.mk (e.name.data.drop i)) ≠ "" := by
            intro hcon
            have hdata : (e.name.data.drop i).map Char.toLower = [] := by
              have := congrArg String.data hcon
              simpa [strLower] using this
            have hnil : e.name.data.drop i = [] := List.map_eq_nil_iff.mp hdata
            have hlen : e.name.data.length ≤ i := List.drop_eq_nil_iff.mp hnil
            omega
          rw [if_neg hne]
        · rw [if_neg hcond, if_neg hcond,
            if_pos (show strLower "" = "" from rfl)]

/-- Witness for `c4_bucket_characterization` at the concrete file `A.TXT`:
its tally bucket is the lowercased suffix `.txt`. -/
theorem c4_bucket_characterization_w :
    (processFile "r" initialState (Entry.mk "A.TXT" true false (some 7))).file_types
        = tallyInc initialState.file_types (bucketName "A.TXT")
    ∧ bucketName "A.TXT" = ".txt" :=
  ⟨(c4_bucket_characterization "r" initialState
      (Entry.mk "A.TXT" true false (some 7)) rfl 7 rfl).1, by decide⟩

/-! ### C9 -/

/-- Taking the first eight characters of `a ++ x` only sees `a` when `a` has
at least eight characters. -/
theorem take_eight_append (a x : String) (h : 8 ≤ a.data.length) :
    ((a ++ x).data.take 8) = a.data.take 8 := by
  have hdata : (a ++ x).data = a.data ++ x.data := rfl
  rw [hdata, List.take_append_of_le_length h]

/-- A report line whose first eight characters are not `Taille m` is not the
average-file-size line, whatever follows the fixed label. -/
theorem avg_line_ne (x l : String)
    (h8 : l.data.take 8 ≠ ['T', 'a', 'i', 'l', 'l', 'e', ' ', 'm']) :
    ("Taille moyenne par fichier    : " ++ x) ≠ l := by
  intro h
  apply h8
  rw [← h, take_eight_append _ _ (by decide)]
  decide

/-- With zero files counted, no line of the (non-verbose) report carries the
average-file-size label: the guarded branch is skipped and every other line
starts differently. -/
theorem avg_notin_report (s : AnalyzerState) (p d x : String) (h : s.total_files = 0) :
    ("Taille moyenne par fichier    : " ++ x) ∉ generate_report s false p d := by
  have h0 : ¬ 0 < s.total_files := by omega
  intro hmem
  rw [generate_report, if_neg h0, if_pos h,
    show (if false then verboseLines s else []) = ([] : List String) from rfl] at hmem
  simp only [List.mem_append, List.mem_cons, List.not_mem_nil, or_false, false_or,
    List.append_nil, List.nil_append, or_assoc] at hmem
  rcases hmem with
    h'|h'|h'|h'|h'|h'|h'|h'|h'|h'|h'|h'|h'|h'|h'|h'|h'|h'|h'|h' <;>
    exact avg_line_ne x _ (by first
      | decide
      | (rw [take_eight_append _ _ (by decide)] ; decide)) h'

/-- With a positive file count, the average-file-size line is printed. -/
theorem avg_in_report (s : AnalyzerState) (p d : String) (h : 0 < s.total_files) :
    ("Taille moyenne par fichier    : "
        ++ get_size_readable ((s.total_size : ℚ) / (s.total_files : ℚ)))
      ∈ generate_report s false p d := by
  rw [generate_report]
  refine List.mem_append_left _ (List.mem_append_left _ (List.mem_append_left _
    (List.mem_append_left _ (List.mem_append_left _ (List.mem_append_right _ ?_)))))
  rw [if_pos h]
  exact List.mem_singleton_self _

/-- C9: analyzing an empty (readable, hence successfully validated) directory
yields all-zero totals; its report, at either verbosity, states the
directory is empty and contains no average-file-size line; and in general the
average-file-size line occurs in the report exactly when the file count is
positive — the guarded division is never reached with a zero divisor. -/
theorem c9_empty_directory_report :
    (analyze_directory (FsDir.node "r" true [] [])).1.total_files = 0
    ∧ (analyze_directory (FsDir.node "r" true [] [])).1.total_directories = 0
    ∧ (analyze_directory (FsDir.node "r" true [] [])).1.total_size = 0
    ∧ (∀ (v : Bool) (p d : String),
        "Le répertoire est vide (aucun fichier trouvé)."
          ∈ generate_report (analyze_directory (FsDir.node "r" true [] [])).1 v p d)
    ∧ (∀ (v : Bool) (p d x : String),
        ("Taille moyenne par fichier    : " ++ x)
          ∉ generate_report (analyze_directory (FsDir.node "r" true [] [])).1 v p d)
    ∧ (∀ (s : AnalyzerState) (p d : String),
        (∃ x, ("Taille moyenne par fichier    : " ++ x) ∈ generate_report s false p d)
          ↔ 0 < s.total_files) := by
  have hsE : (analyze_directory (FsDir.node "r" true [] [])).1 = initialState := rfl
  have hrep : ∀ (v : Bool) (p d : String),
      generate_report initialState v p d = generate_report initialState false p d := by
    intro v p d
    cases v <;> rfl
  refine ⟨rfl, rfl, rfl, ?_, ?_, ?_⟩
  · intro v p d
    rw [hsE, hrep]
    rw [generate_report]
    refine List.mem_append_left _ (List.mem_append_right _ ?_)
    rw [if_pos (show initialState.total_files = 0 from rfl)]
    exact List.mem_singleton_self _
  · intro v p d x
    rw [hsE, hrep]
    exact avg_notin_report initialState p d x rfl
  · intro s p d
    constructor
    · rintro ⟨x, hx⟩
      by_contra hpos
      exact avg_notin_report s p d x (by omega) hx
    · intro h
      exact ⟨_, avg_in_report s p d h⟩
